import Mathlib

/-!
Verification development for the torrent-monitoring core: title
normalization (`scrapers/base_scraper.py`), entity grouping (`main.py`,
`BaseScraper.group_similar_items`), and the ranking / chart pipeline
(`data_manager.py`).  Python strings are modelled as `List Char`
(ASCII-level model of `\w`, `\s`, `str.lower`), regular-expression
rewriting is modelled by a small backtracking matcher with Python `re`
semantics (leftmost match, alternation preferring the left branch,
greedy/lazy quantifiers), and the ordered rewrite rules of
`clean_title` are transcribed pattern by pattern.
-/

namespace TorrentMon

/-- Word characters for `\b`, modelling Python `\w` at the ASCII level. -/
def isWordChar (c : Char) : Bool := c.isAlphanum || c == '_'

/-- Whitespace for `\s` / `str.strip()` / `str.split()` (ASCII model). -/
def isWS (c : Char) : Bool := c.isWhitespace

/-- Python `str.strip()`: drop whitespace from both ends. -/
def pyStrip (l : List Char) : List Char :=
  ((l.dropWhile isWS).reverse.dropWhile isWS).reverse

/-- Python `str.lower()` (ASCII model). -/
def pyLower (l : List Char) : List Char := l.map Char.toLower

/-- Python `re.sub(r'\s+', '', s)`: remove every whitespace character. -/
def removeWS (l : List Char) : List Char := l.filter (fun c => !isWS c)

/-- Python `s.replace('.', ' ')`. -/
def dotsToSpaces (l : List Char) : List Char :=
  l.map (fun c => if c == '.' then ' ' else c)

/-- Helper for Python `str.split()`: accumulate the current word (reversed). -/
def pySplitGo : List Char → List Char → List (List Char)
  | [], cur => if cur.isEmpty then [] else [cur.reverse]
  | c :: tl, cur =>
    if isWS c then
      if cur.isEmpty then pySplitGo tl [] else cur.reverse :: pySplitGo tl []
    else pySplitGo tl (c :: cur)

/-- Python `str.split()`: split on whitespace runs, dropping empty tokens. -/
def pySplit (l : List Char) : List (List Char) := pySplitGo l []

/-! ### A small regular-expression engine with Python `re` semantics

`star` carries a laziness flag; iteration requires progress (every
pattern body below consumes at least one character, matching how the
source's quantified subpatterns behave).  Matching is continuation
passing; `Option.orElse` realises Python's backtracking preference
order (left alternative first, greedy wants more first, lazy wants
fewer first).  A fuel argument makes the recursion structural; the
fuel computed by `reFuel` is far above the maximal backtracking depth
(structure depth plus one star unrolling per consumed character). -/

inductive RE where
  | fail
  | eps
  | cls (p : Char → Bool)
  | seq (a b : RE)
  | alt (a b : RE)
  | star (lazy : Bool) (a : RE)
  | opt (a : RE)
  | wb
  | eos

/-- Case-insensitive literal character (every letter pattern in the
source is applied with `re.IGNORECASE`; for non-letters this is the
plain literal). -/
def RE.chI (c : Char) : RE := .cls (fun x => x.toLower == c.toLower)

/-- Case-insensitive literal string. -/
def RE.strI (s : String) : RE := s.data.foldr (fun c r => .seq (.chI c) r) .eps

/-- Alternation over a list, preferring earlier entries (Python `a|b|c`). -/
def RE.alts (l : List RE) : RE := l.foldr .alt .fail

/-- `\b(w1|w2|...)\b` for a list of literal words. -/
def RE.kwB (ws : List String) : RE :=
  .seq .wb (.seq (RE.alts (ws.map RE.strI)) .wb)

/-- `\d`. -/
def RE.dig : RE := .cls Char.isDigit

/-- `\s`. -/
def RE.wsp : RE := .cls isWS

/-- `.` (any character except newline). -/
def RE.dot : RE := .cls (fun c => c != '\n')

/-- `r+` (greedy). -/
def RE.plus (r : RE) : RE := .seq r (.star false r)

/-- Structural size of a regex, used to compute sufficient fuel. -/
def RE.size : RE → Nat
  | .fail => 1
  | .eps => 1
  | .cls _ => 1
  | .seq a b => a.size + b.size + 1
  | .alt a b => a.size + b.size + 1
  | .star _ a => a.size + 1
  | .opt a => a.size + 1
  | .wb => 1
  | .eos => 1

/-- Does `\b` hold between the previous character and the next one? -/
def atBoundary (prev next : Option Char) : Bool :=
  (match prev with | none => false | some c => isWordChar c)
    != (match next with | none => false | some c => isWordChar c)

/-- Backtracking matcher.  `prev` is the character just before the
current position (for `\b`), `k` the continuation receiving the new
`prev` and the rest of the input; the result is the input remaining
after the overall match, following Python's preference order. -/
def reM : Nat → RE → Option Char → List Char →
    (Option Char → List Char → Option (List Char)) → Option (List Char)
  | 0, _, _, _, _ => none
  | Nat.succ f, r, prev, s, k =>
    match r with
    | .fail => none
    | .eps => k prev s
    | .cls p =>
      match s with
      | [] => none
      | c :: rest => if p c then k (some c) rest else none
    | .seq a b => reM f a prev s (fun p2 s2 => reM f b p2 s2 k)
    | .alt a b => (reM f a prev s k).orElse (fun _ => reM f b prev s k)
    | .opt a => (reM f a prev s k).orElse (fun _ => k prev s)
    | .star lz a =>
      if lz then
        (k prev s).orElse (fun _ =>
          reM f a prev s (fun p2 s2 =>
            if s2.length < s.length then reM f (.star lz a) p2 s2 k else none))
      else
        (reM f a prev s (fun p2 s2 =>
          if s2.length < s.length then reM f (.star lz a) p2 s2 k else none)).orElse
          (fun _ => k prev s)
    | .wb => if atBoundary prev s.head? then k prev s else none
    | .eos =>
      match s with
      | [] => k prev s
      | [c] => if c == '\n' then k prev s else none
      | _ => none

/-- Fuel bound: generous upper bound on the backtracking depth. -/
def reFuel (r : RE) (s : List Char) : Nat := (r.size + 2) * (s.length + 2)

/-- Try to match `r` at the current position; on success return the
remaining suffix after the (preferred) match. -/
def reTry (r : RE) (prev : Option Char) (s : List Char) : Option (List Char) :=
  reM (reFuel r s) r prev s (fun _ rest => some rest)

/-- Python `re.sub(r, repl, s)`: replace every non-overlapping leftmost
match.  On a zero-width match the replacement is emitted and scanning
advances one character (Python 3.7+; no pattern below is nullable). -/
def reSubGo : Nat → RE → List Char → Option Char → List Char → List Char
  | 0, _, _, _, s => s
  | Nat.succ f, r, repl, prev, s =>
    match reTry r prev s with
    | some rest =>
      let consumed := s.length - rest.length
      if consumed == 0 then
        match s with
        | [] => repl
        | c :: tl => repl ++ c :: reSubGo f r repl (some c) tl
      else repl ++ reSubGo f r repl ((s.take consumed).getLast?) rest
    | none =>
      match s with
      | [] => []
      | c :: tl => c :: reSubGo f r repl (some c) tl

/-- Python `re.sub` entry point. -/
def reSub (r : RE) (repl : List Char) (s : List Char) : List Char :=
  reSubGo (s.length + 1) r repl none s

/-- Python `re.search(...).start()`: index of the leftmost match, if any. -/
def reSearchGo : Nat → RE → Option Char → List Char → Nat → Option Nat
  | 0, _, _, _, _ => none
  | Nat.succ f, r, prev, s, idx =>
    match reTry r prev s with
    | some _ => some idx
    | none =>
      match s with
      | [] => none
      | c :: tl => reSearchGo f r (some c) tl (idx + 1)

/-- Python `re.search` start position. -/
def reSearchStart (r : RE) (s : List Char) : Option Nat :=
  reSearchGo (s.length + 1) r none s 0

/-! ### `clean_title` (src/scrapers/base_scraper.py, lines 31-150)

Each entry below transcribes one regex of the source, in order.  All
letter-bearing patterns are applied with `re.IGNORECASE` there, which
`RE.chI`/`RE.strI` build in. -/

/-- `[\d\.]` (digit or dot). -/
def digDot : RE := .cls (fun c => c.isDigit || c == '.')

/-- `[a-z\d]` under `re.IGNORECASE`: any ASCII letter or digit. -/
def alnumLet : RE := .cls (fun c => c.isAlpha || c.isDigit)

/-- `[-.\s]`. -/
def bds : RE := .cls (fun c => c == '-' || c == '.' || isWS c)

/-- `patterns_all`: rules removed for both matching and display. -/
def patternsAll : List RE := [
  -- `\[.*?\]`
  .seq (.chI '[') (.seq (.star true RE.dot) (.chI ']')),
  -- `\(.*?\)`
  .seq (.chI '(') (.seq (.star true RE.dot) (.chI ')')),
  -- `\b(CAM|TS|TELESYNC|TC|HC)\b`
  RE.kwB ["cam", "ts", "telesync", "tc", "hc"],
  -- `\b(BRRip|BDRip|BluRay|DVDRip|HDRip|WEBRip|WEB-DL|HDTV)\b`
  RE.kwB ["brrip", "bdrip", "bluray", "dvdrip", "hdrip", "webrip", "web-dl", "hdtv"],
  -- `\b(REMUX)\b`
  RE.kwB ["remux"],
  -- `\b(x264|x265|HEVC|XviD)\b`
  RE.kwB ["x264", "x265", "hevc", "xvid"],
  -- `\b(AAC|AC3|DTS|FLAC)\b`
  RE.kwB ["aac", "ac3", "dts", "flac"],
  -- `\b(\d{3,4}p)\b`
  .seq .wb (.seq RE.dig (.seq RE.dig (.seq RE.dig (.seq (.opt RE.dig) (.seq (.chI 'p') .wb))))),
  -- `\b(\d\.\d)\b`
  .seq .wb (.seq RE.dig (.seq (.chI '.') (.seq RE.dig .wb))),
  -- `\b(4K)\b`
  RE.kwB ["4k"],
  -- `\(v[\d\.]+.*?\)`
  .seq (.chI '(') (.seq (.chI 'v') (.seq (RE.plus digDot) (.seq (.star true RE.dot) (.chI ')')))),
  -- `\b(v[\d\.]+)`
  .seq .wb (.seq (.chI 'v') (RE.plus digDot)),
  -- `\b(Update.*$)`
  .seq .wb (.seq (RE.strI "update") (.seq (.star false RE.dot) .eos)),
  -- `\b(Repack)\b`
  RE.kwB ["repack"],
  -- `\b(MULTi\d*)\b`
  .seq .wb (.seq (RE.strI "multi") (.seq (.star false RE.dig) .wb)),
  -- `\b(DLC)\b`
  RE.kwB ["dlc"],
  -- `\b(REMASTERED)\b`
  RE.kwB ["remastered"],
  -- `\b(EXTENDED)\b`
  RE.kwB ["extended"],
  -- `\b(DIRECTORS? CUT)\b`
  .seq .wb (.seq (RE.strI "director") (.seq (.opt (.chI 's')) (.seq (RE.strI " cut") .wb))),
  -- `\b(UNRATED)\b`
  RE.kwB ["unrated"],
  -- `\b(COMPLETE.*?EDITION)\b`
  .seq .wb (.seq (RE.strI "complete") (.seq (.star true RE.dot) (.seq (RE.strI "edition") .wb))),
  -- `\b(19\d{2}|20\d{2})\b`
  .seq .wb (.seq (.alt (RE.strI "19") (RE.strI "20")) (.seq RE.dig (.seq RE.dig .wb))),
  -- `\+.*$`
  .seq (.chI '+') (.seq (.star false RE.dot) .eos),
  -- `\b(RUS|ENG|ITA|SPA|GER|FRE)\b`
  RE.kwB ["rus", "eng", "ita", "spa", "ger", "fre"],
  -- `\b(LiMiTED)\b`
  RE.kwB ["limited"]
]

/-- `patterns_matching_only`: extra rules for `key` mode. -/
def patternsMatchingOnly : List RE := [
  -- `\b(YIFY|YTS|RARBG|ETRG|EtHD|EVO|PSA|NTb|MT|TGx|GalaxyRG)\b`
  RE.kwB ["yify", "yts", "rarbg", "etrg", "ethd", "evo", "psa", "ntb", "mt", "tgx", "galaxyrg"],
  -- `\b(FitGirl|DODI|CODEX|PLAZA|SKIDROW|RELOADED|TENOKE|RUNE|CPY|EMPRESS|GOG|FLT)\b`
  RE.kwB ["fitgirl", "dodi", "codex", "plaza", "skidrow", "reloaded", "tenoke", "rune", "cpy", "empress", "gog", "flt"],
  -- `\b(COLLECTiVE)\b`
  RE.kwB ["collective"],
  -- `\b(BONE)\b`
  RE.kwB ["bone"],
  -- `\s*-\s*[a-z\d]+$`
  .seq (.star false RE.wsp) (.seq (.chI '-') (.seq (.star false RE.wsp) (.seq (RE.plus alnumLet) .eos))),
  -- `\s*\(.*\)$`
  .seq (.star false RE.wsp) (.seq (.chI '(') (.seq (.star false RE.dot) (.seq (.chI ')') .eos))),
  -- `\s*\[.*\]$`
  .seq (.star false RE.wsp) (.seq (.chI '[') (.seq (.star false RE.dot) (.seq (.chI ']') .eos))),
  -- `\b(?:deluxe|ultimate|gold|complete|collectors?|definitive|remastered|enhanced|goty|game of the year|premium|supporter|standard|bundle|pack|edition)\b`
  .seq .wb (.seq (RE.alts [RE.strI "deluxe", RE.strI "ultimate", RE.strI "gold", RE.strI "complete",
    .seq (RE.strI "collector") (.opt (.chI 's')), RE.strI "definitive", RE.strI "remastered",
    RE.strI "enhanced", RE.strI "goty", RE.strI "game of the year", RE.strI "premium",
    RE.strI "supporter", RE.strI "standard", RE.strI "bundle", RE.strI "pack",
    RE.strI "edition"]) .wb),
  -- `\b(?:repack|rip|preinstalled|portable)\b`
  RE.kwB ["repack", "rip", "preinstalled", "portable"],
  -- `\b(?:v\d+(?:[.]\d+)*|build[-.\s]?\d+|update[-.\s]?\d+)\b`
  .seq .wb (.seq (RE.alts [
    .seq (.chI 'v') (.seq (RE.plus RE.dig) (.star false (.seq (.chI '.') (RE.plus RE.dig)))),
    .seq (RE.strI "build") (.seq (.opt bds) (RE.plus RE.dig)),
    .seq (RE.strI "update") (.seq (.opt bds) (RE.plus RE.dig))]) .wb),
  -- `\b(?:multi\d*|eng|rus|ita|esp|jpn|kor|fre|ger|\d{1,2} languages?)\b`
  .seq .wb (.seq (RE.alts [
    .seq (RE.strI "multi") (.star false RE.dig),
    RE.strI "eng", RE.strI "rus", RE.strI "ita", RE.strI "esp", RE.strI "jpn", RE.strI "kor",
    RE.strI "fre", RE.strI "ger",
    .seq RE.dig (.seq (.opt RE.dig) (.seq (.chI ' ') (.seq (RE.strI "language") (.opt (.chI 's')))))]) .wb),
  -- `\b(RUNE|FitGirl|DODI|CODEX|PLAZA|SKIDROW|RELOADED|TENOKE|CPY|EMPRESS|GOG|FLT|BONE)\b`
  RE.kwB ["rune", "fitgirl", "dodi", "codex", "plaza", "skidrow", "reloaded", "tenoke", "cpy", "empress", "gog", "flt", "bone"]
]

/-- `patterns_display_only`. -/
def patternsDisplayOnly : List RE := [RE.kwB ["selective download"]]

/-- The punctuation class removed in `key` mode:
`[:;,.\-\'"`~!@#$%^&*()_+={}\[\]|\\<>?]+` (backtick and braces written
via `Char.ofNat`). -/
def punctChars : List Char :=
  [':', ';', ',', '.', '-', '\'', '"', Char.ofNat 96, '~', '!', '@', '#', '$', '%', '^', '&',
   '*', '(', ')', '_', '+', '=', Char.ofNat 123, Char.ofNat 125, '[', ']', '|', '\\', '<', '>', '?']

/-- `[:;,.\-...]+` as a regex. -/
def punctRE : RE := RE.plus (.cls (fun c => punctChars.contains c))

/-- `\s+`. -/
def wsPlusRE : RE := RE.plus RE.wsp

/-- `[\s:-]+$`. -/
def trailingNoiseRE : RE :=
  .seq (RE.plus (.cls (fun c => isWS c || c == ':' || c == '-'))) .eos

/-- Apply an ordered list of removal patterns (`re.sub(p, '', ·)` in sequence). -/
def applyPats (pats : List RE) (s : List Char) : List Char :=
  pats.foldl (fun acc p => reSub p [] acc) s

/-- `clean_title(title, for_display)` from `base_scraper.py`. -/
def clean_title (title : List Char) (forDisplay : Bool) : List Char :=
  let c1 := dotsToSpaces title
  let c2 := applyPats patternsAll c1
  let c3 :=
    if !forDisplay then reSub punctRE [] (applyPats patternsMatchingOnly c2)
    else applyPats patternsDisplayOnly c2
  let c4 := pyStrip (reSub wsPlusRE [' '] c3)
  let c5 := pyStrip (reSub trailingNoiseRE [] c4)
  if !forDisplay then pyLower c5 else c5

/-! ### Category-specific grouping keys (base_scraper.py, lines 152-287) -/

/-- One position of `\b(19\d{2}|20\d{2})\b`: does the pattern match here?
`prev` is the previous character (the year digits are word characters,
so the left boundary holds iff `prev` is absent or not a word char). -/
def yearAt (prev : Option Char) (s : List Char) : Bool :=
  match s with
  | c1 :: c2 :: c3 :: c4 :: rest =>
    (match prev with | none => true | some p => !isWordChar p) &&
    ((c1 == '1' && c2 == '9') || (c1 == '2' && c2 == '0')) &&
    c3.isDigit && c4.isDigit &&
    (match rest with | [] => true | c5 :: _ => !isWordChar c5)
  | _ => false

/-- Index of the leftmost `\b(19\d{2}|20\d{2})\b` match
(`re.search(...).start()` in `get_movie_grouping_key`). -/
def findYearGo (prev : Option Char) (s : List Char) (idx : Nat) : Option Nat :=
  if yearAt prev s then some idx
  else
    match s with
    | [] => none
    | c :: tl => findYearGo (some c) tl (idx + 1)

/-- Leftmost year-match index in a string. -/
def findYearIdx (s : List Char) : Option Nat := findYearGo none s 0

/-- Python `clean_title(title, for_display=True) or title`. -/
def displayOrTitle (title : List Char) : List Char :=
  let d := clean_title title true
  if d.isEmpty then title else d

/-- Strip a single trailing `'('` or `'['` (after `str.strip()`), as the
tail of `get_movie_grouping_key` does via `endswith(('(', '['))`. -/
def dropTrailingOpenBracket (l : List Char) : List Char :=
  match l.getLast? with
  | some c => if c == '(' || c == '[' then pyStrip l.dropLast else l
  | none => l

/-- `get_movie_grouping_key(title)` from `base_scraper.py`: returns
`(normalized_key, display_prefix)`. -/
def get_movie_grouping_key (title : List Char) : List Char × List Char :=
  let cleanedForYearFind := dotsToSpaces title
  -- `base_for_key` and `display_prefix` coincide in every branch of the
  -- source (prefix branch sets both to the prefix, the two fallback
  -- branches set both to the aggressive clean), so one value models both.
  let base :=
    match findYearIdx cleanedForYearFind with
    | some i =>
      let potential := pyStrip (cleanedForYearFind.take i)
      if !potential.isEmpty && 1 ≤ (pySplit potential).length then potential
      else clean_title title false
    | none => clean_title title false
  let key0 := pyLower (removeWS base)
  -- first safety check: empty key becomes a placeholder, and an empty
  -- display falls back to `clean_title(title, True) or title`
  let key1 := if key0.isEmpty then "unknown_movie_group".data else key0
  let d1 :=
    if key0.isEmpty then (if base.isEmpty then displayOrTitle title else base) else base
  -- second safety check (key valid but display empty)
  let d2 :=
    if d1.isEmpty && key1 != "unknown_movie_group".data then displayOrTitle title else d1
  (key1, dropTrailingOpenBracket (pyStrip d2))

/-- The `suffixes_to_remove` list of `get_game_grouping_key`; each is
searched with an extra `'$'` appended and `re.IGNORECASE`. -/
def gameSuffixREs : List RE := [
  -- `\s*[-\(:]\s*(?:\d+\s*[/.]?\s*\d+|v\d+|build|update|dlc|ost|soundtrack|multi\d*|eng|rus|ita|jpn|kor)\b.*`
  .seq (.star false RE.wsp) (.seq (.cls (fun c => c == '-' || c == '(' || c == ':'))
    (.seq (.star false RE.wsp) (.seq (RE.alts [
      .seq (RE.plus RE.dig) (.seq (.star false RE.wsp) (.seq (.opt (.cls (fun c => c == '/' || c == '.'))) (.seq (.star false RE.wsp) (RE.plus RE.dig)))),
      .seq (.chI 'v') (RE.plus RE.dig),
      RE.strI "build", RE.strI "update", RE.strI "dlc", RE.strI "ost", RE.strI "soundtrack",
      .seq (RE.strI "multi") (.star false RE.dig),
      RE.strI "eng", RE.strI "rus", RE.strI "ita", RE.strI "jpn", RE.strI "kor"])
      (.seq .wb (.star false RE.dot))))),
  -- `\s*[-\(:]\s*(?:premium|deluxe|supporter|ultimate|standard|collector.?s|goty|digital|definitive|complete|remastered|gold|enhanced|bundle|pack|edition|repack|rip|fitgirl|dodi|codex|rune|p2p|gog|flt)\b.*`
  .seq (.star false RE.wsp) (.seq (.cls (fun c => c == '-' || c == '(' || c == ':'))
    (.seq (.star false RE.wsp) (.seq (RE.alts [
      RE.strI "premium", RE.strI "deluxe", RE.strI "supporter", RE.strI "ultimate",
      RE.strI "standard", .seq (RE.strI "collector") (.seq (.opt RE.dot) (.chI 's')),
      RE.strI "goty", RE.strI "digital", RE.strI "definitive", RE.strI "complete",
      RE.strI "remastered", RE.strI "gold", RE.strI "enhanced", RE.strI "bundle",
      RE.strI "pack", RE.strI "edition", RE.strI "repack", RE.strI "rip",
      RE.strI "fitgirl", RE.strI "dodi", RE.strI "codex", RE.strI "rune",
      RE.strI "p2p", RE.strI "gog", RE.strI "flt"])
      (.seq .wb (.star false RE.dot))))),
  -- `\s*\(.*\)$`
  .seq (.star false RE.wsp) (.seq (.chI '(') (.seq (.star false RE.dot) (.seq (.chI ')') .eos))),
  -- `\s*\[[^\]]*\]$`
  .seq (.star false RE.wsp) (.seq (.chI '[') (.seq (.star false (.cls (fun c => c != ']'))) (.seq (.chI ']') .eos))),
  -- `\s*-\s*RUNE$`
  .seq (.star false RE.wsp) (.seq (.chI '-') (.seq (.star false RE.wsp) (.seq (RE.strI "rune") .eos))),
  -- `\s*: Khaos Reigns Kollection.*`
  .seq (.star false RE.wsp) (.seq (RE.strI ": khaos reigns kollection") (.star false RE.dot)),
  -- `\s*with early p.*`
  .seq (.star false RE.wsp) (.seq (RE.strI "with early p") (.star false RE.dot)),
  -- `\s*3 3f\d+$`
  .seq (.star false RE.wsp) (.seq (RE.strI "3 3f") (.seq (RE.plus RE.dig) .eos)),
  -- `\s*-\s*\(\s*\d+\s+\d+\s+\d+\s*\)$`
  .seq (.star false RE.wsp) (.seq (.chI '-') (.seq (.star false RE.wsp) (.seq (.chI '(')
    (.seq (.star false RE.wsp) (.seq (RE.plus RE.dig) (.seq (RE.plus RE.wsp)
    (.seq (RE.plus RE.dig) (.seq (RE.plus RE.wsp) (.seq (RE.plus RE.dig)
    (.seq (.star false RE.wsp) (.seq (.chI ')') .eos)))))))))))
]

/-- The suffix-removal loop of `get_game_grouping_key`:
`re.search(pattern + '$', temp_title, re.IGNORECASE)`, truncating at
`match.start()` and stripping, pattern by pattern. -/
def stripSuffixes : List RE → List Char → List Char
  | [], t => t
  | r :: rs, t =>
    let t2 :=
      match reSearchStart (.seq r .eos) t with
      | some i => pyStrip (t.take i)
      | none => t
    stripSuffixes rs t2

/-- `[\s:;,.\(\[\-]+$` (final trailing cleanup of the game display title). -/
def gameTrailRE : RE :=
  .seq (RE.plus (.cls (fun c =>
    isWS c || c == ':' || c == ';' || c == ',' || c == '.' || c == '(' || c == '[' || c == '-'))) .eos

/-- The tail of `get_game_grouping_key` after suffix removal: final
trailing cleanup, then `clean_title(title, True)`-or-`title` fallback
if everything was removed. -/
def gameDisplayFinal (title temp : List Char) : List Char :=
  let display3 := pyStrip (reSub gameTrailRE [] temp)
  if display3.isEmpty then displayOrTitle title else display3

/-- `get_game_grouping_key(title)` from `base_scraper.py`: returns
`(normalized_key, display_title)`. -/
def get_game_grouping_key (title : List Char) : List Char × List Char :=
  let display0 := clean_title title true
  let display1 := if display0.isEmpty then title else display0
  let keyBase := clean_title title false
  let key0 := pyLower (removeWS keyBase)
  let key1 := if key0.isEmpty then "unknown_game_group".data else key0
  -- inside `if not normalized_key:` the display falls back again when it
  -- had already fallen back to the raw title
  let display2 :=
    if key0.isEmpty && display1 == title then displayOrTitle title else display1
  (key1, gameDisplayFinal title (stripSuffixes gameSuffixREs display2))

/-- String-level wrapper for `clean_title` in `key` mode. -/
def cleanTitleKeyS (t : String) : String := String.mk (clean_title t.data false)

/-- String-level wrapper for `clean_title` in `display` mode. -/
def cleanTitleDisplayS (t : String) : String := String.mk (clean_title t.data true)

/-- String-level wrapper for `get_movie_grouping_key`. -/
def movieGroupingKeyS (t : String) : String × String :=
  let p := get_movie_grouping_key t.data
  (String.mk p.1, String.mk p.2)

/-- String-level wrapper for `get_game_grouping_key`. -/
def gameGroupingKeyS (t : String) : String × String :=
  let p := get_game_grouping_key t.data
  (String.mk p.1, String.mk p.2)

/-! ### Entity grouping (src/main.py `scrape_data`, lines 31-64 and 79-122)

The games and movies blocks are the same fold over the input listings,
differing only in the key-derivation function; we model the common
shape parametrised by `keyFn` and instantiate it with
`gameGroupingKeyS` / `movieGroupingKeyS`. -/

/-- One scraped listing as produced by games/movies scrapers: fields
`title`, `seeders`, `leechers`, `clean_title` (the further fields of the
Python dict play no role in grouping). -/
structure RawItem where
  title : String
  seeders : Nat
  leechers : Nat
  clean_title : String
deriving DecidableEq, Repr

/-- The per-key accumulator dict value in `scrape_data`. -/
structure GAcc where
  display_title : String
  torrents : List RawItem
  total_seeders : Nat
  total_leechers : Nat
  total_peers : Nat
deriving DecidableEq, Repr

/-- Add one listing to a group accumulator (the `+=` lines of the loop;
`current_peers = seeders + leechers`). -/
def addToGroup (g : GAcc) (it : RawItem) : GAcc :=
  { g with
    torrents := g.torrents ++ [it],
    total_seeders := g.total_seeders + it.seeders,
    total_leechers := g.total_leechers + it.leechers,
    total_peers := g.total_peers + (it.seeders + it.leechers) }

/-- One iteration of the grouping loop: create the dict entry if the key
is new (Python dicts keep insertion order, modelled by an association
list with append), then accumulate the listing into it. -/
def stepGroup (keyFn : String → String × String) (acc : List (String × GAcc))
    (it : RawItem) : List (String × GAcc) :=
  let kd := keyFn it.title
  let acc1 :=
    if (acc.find? (fun p => p.1 == kd.1)).isSome then acc
    else acc ++ [(kd.1, ⟨kd.2, [], 0, 0, 0⟩)]
  acc1.map (fun p => if p.1 == kd.1 then (p.1, addToGroup p.2 it) else p)

/-- The grouping dict after processing all listings. -/
def buildGroupsMap (keyFn : String → String × String) (items : List RawItem) :
    List (String × GAcc) :=
  items.foldl (stepGroup keyFn) []

/-- Python `max(torrents, key=lambda x: x.get('seeders',0)+x.get('leechers',0))`:
first maximal element wins ties. -/
def pyMaxPeers : List RawItem → Option RawItem
  | [] => none
  | x :: tl =>
    some (tl.foldl (fun best it =>
      if it.seeders + it.leechers > best.seeders + best.leechers then it else best) x)

/-- An emitted entity group (`games_grouped` / `movies_grouped` entry). -/
structure EntityGroup where
  representative : RawItem
  total_seeders : Nat
  total_leechers : Nat
  total_peers : Nat
  torrents : List RawItem
deriving DecidableEq, Repr

/-- Turn one dict entry into an output group: skip empty member lists
(`if not group_data['torrents']: continue`), pick the representative and
overwrite its `clean_title` with the stored group display string. -/
def mkEntityGroup (g : GAcc) : Option EntityGroup :=
  match pyMaxPeers g.torrents with
  | none => none
  | some rep =>
    some { representative := { rep with clean_title := g.display_title },
           total_seeders := g.total_seeders,
           total_leechers := g.total_leechers,
           total_peers := g.total_peers,
           torrents := g.torrents }

/-- The grouped output of `scrape_data` for one category. -/
def groupByKeyFn (keyFn : String → String × String) (items : List RawItem) :
    List EntityGroup :=
  (buildGroupsMap keyFn items).filterMap (fun p => mkEntityGroup p.2)

/-- The games instantiation (`get_game_grouping_key`). -/
def groupGames (items : List RawItem) : List EntityGroup :=
  groupByKeyFn gameGroupingKeyS items

/-- The movies instantiation (`get_movie_grouping_key`). -/
def groupMovies (items : List RawItem) : List EntityGroup :=
  groupByKeyFn movieGroupingKeyS items

/-- Sum of the `seeders` field over a member list. -/
def sumSeeders (l : List RawItem) : Nat := (l.map (·.seeders)).sum

/-- Sum of the `leechers` field over a member list. -/
def sumLeechers (l : List RawItem) : Nat := (l.map (·.leechers)).sum

/-- Sum of per-member peers (`seeders + leechers`) over a member list. -/
def sumMemberPeers (l : List RawItem) : Nat := (l.map (fun it => it.seeders + it.leechers)).sum

/-! ### Similarity clustering (`BaseScraper.group_similar_items`,
base_scraper.py lines 521-574)

The similarity test (`calculate_similarity(...) >= similarity_threshold`,
a Gestalt ratio over `key`-mode cleaned titles compared against a float
threshold) is modelled as an abstract Boolean predicate on the two raw
titles; every theorem below holds for an arbitrary predicate, hence in
particular for the source's instantiation. -/

/-- An item consumed by `group_similar_items`: the scrapers construct
these with `total_peers = seeders + leechers`. -/
structure SimItem where
  title : String
  seeders : Nat
  leechers : Nat
  total_peers : Nat
deriving DecidableEq, Repr

/-- A similarity cluster. -/
structure SimGroup where
  representative : SimItem
  titles : List String
  total_seeders : Nat
  total_leechers : Nat
  total_peers : Nat
  versions : List SimItem
deriving DecidableEq, Repr

/-- Descending stable insertion by `total_peers`, modelling
`sorted(items_data, key=lambda x: x['total_peers'], reverse=True)`
(tie order between equal keys is irrelevant to the claims below). -/
def insertPeersDescSim (x : SimItem) : List SimItem → List SimItem
  | [] => [x]
  | y :: tl => if x.total_peers > y.total_peers then x :: y :: tl else y :: insertPeersDescSim x tl

/-- Sort items by `total_peers` descending. -/
def sortPeersDescSim (items : List SimItem) : List SimItem :=
  items.foldr insertPeersDescSim []

/-- The inner absorption loop body: skip processed indices and the
representative's own index, absorb items the predicate accepts. -/
def absorbStep (simOK : String → String → Bool) (repTitle : String) (iIdx : Nat) :
    SimGroup × List Nat → Nat × SimItem → SimGroup × List Nat
  | (g, proc), (j, other) =>
    if proc.contains j || iIdx == j then (g, proc)
    else if simOK repTitle other.title then
      ({ g with
          titles := g.titles ++ [other.title],
          total_seeders := g.total_seeders + other.seeders,
          total_leechers := g.total_leechers + other.leechers,
          total_peers := g.total_peers + other.total_peers,
          versions := g.versions ++ [other] }, proc ++ [j])
    else (g, proc)

/-- The outer loop of `group_similar_items` over the sorted, indexed items. -/
def gsiOuter (simOK : String → String → Bool) :
    List (Nat × SimItem) → List (Nat × SimItem) → List Nat → List SimGroup
  | [], _, _ => []
  | (i, it) :: rest, all, proc =>
    if proc.contains i then gsiOuter simOK rest all proc
    else
      let g0 : SimGroup :=
        ⟨it, [it.title], it.seeders, it.leechers, it.total_peers, [it]⟩
      let r := all.foldl (absorbStep simOK it.title i) (g0, proc ++ [i])
      r.1 :: gsiOuter simOK rest all r.2

/-- `group_similar_items(items_data)` with the similarity test abstracted. -/
def group_similar_items (simOK : String → String → Bool) (items : List SimItem) :
    List SimGroup :=
  if items.isEmpty then []
  else
    let sorted := sortPeersDescSim items
    gsiOuter simOK sorted.enum sorted.enum []

/-- Sum of `seeders` over versions. -/
def sumSeedersSim (l : List SimItem) : Nat := (l.map (·.seeders)).sum

/-- Sum of `leechers` over versions. -/
def sumLeechersSim (l : List SimItem) : Nat := (l.map (·.leechers)).sum

/-- Sum of the `total_peers` field over versions. -/
def sumPeersSim (l : List SimItem) : Nat := (l.map (·.total_peers)).sum

/-! ### Rankings (src/data_manager.py)

`update_summary_data` appends one summary row per entity group and then
regenerates the daily/weekly rankings from the whole history.  A row
carries the fields of the summary CSV that the ranking code reads. -/

/-- One row of `summary_data.csv`. -/
structure SRow where
  title : String
  seeders : Nat
  leechers : Nat
  peers : Nat
  category : String
  date : String
  timestamp : String
deriving DecidableEq, Repr

/-- Descending insertion by `peers`, modelling
`sort_values('peers', ascending=False)` (pandas leaves tie order
unspecified; no claim below depends on it). -/
def insertPeersDesc (x : SRow) : List SRow → List SRow
  | [] => [x]
  | y :: tl => if x.peers > y.peers then x :: y :: tl else y :: insertPeersDesc x tl

/-- Sort rows by `peers` descending. -/
def sortPeersDesc (rows : List SRow) : List SRow := rows.foldr insertPeersDesc []

/-- The `previous_ranks` dict: iterating the sorted previous rows sets
`previous_ranks[title] = i + 1`, so a duplicated title keeps the rank of
its last occurrence. -/
def prevRankOf (prevSorted : List SRow) (t : String) : Option Nat :=
  (prevSorted.enum.filterMap (fun p => if p.2.title == t then some (p.1 + 1) else none)).getLast?

/-- `rank_change`: a signed delta or the sentinel `"new"`. -/
inductive RankChange where
  | delta (d : Int)
  | new
deriving DecidableEq, Repr

/-- One emitted ranking entry. -/
structure REntry where
  title : String
  current_rank : Nat
  previous_rank : Option Nat
  rank_change : RankChange
  seeders : Nat
  leechers : Nat
  peers : Nat
deriving DecidableEq, Repr

/-- Build the entry for the row at 0-based sorted position `i`. -/
def mkREntry (prevSorted : List SRow) (i : Nat) (row : SRow) : REntry :=
  match prevRankOf prevSorted row.title with
  | some pr =>
    ⟨row.title, i + 1, some pr, .delta ((pr : Int) - ((i + 1 : Nat) : Int)),
      row.seeders, row.leechers, row.peers⟩
  | none => ⟨row.title, i + 1, none, .new, row.seeders, row.leechers, row.peers⟩

/-- The per-entry loop of `_calculate_ranking_changes`: each iteration
appends one entry to `rankings` and then rewrites the artifact file with
the rankings accumulated so far; the second component records the
successive file contents (one element per `json.dump`). -/
def rankLoop (prevSorted : List SRow) :
    List (Nat × SRow) → List REntry → List (List REntry) →
    List REntry × List (List REntry)
  | [], rankings, writes => (rankings, writes)
  | (i, row) :: rest, rankings, writes =>
    let rankings2 := rankings ++ [mkREntry prevSorted i row]
    rankLoop prevSorted rest rankings2 (writes ++ [rankings2])

/-- `_calculate_ranking_changes(current_data, previous_data, ...)`:
returns the final rankings list and the sequence of artifact-file
writes performed (empty input produces no write at all). -/
def calcRankingChanges (currentData previousData : List SRow) :
    List REntry × List (List REntry) :=
  let currentSorted := sortPeersDesc currentData
  let previousSorted := sortPeersDesc previousData
  rankLoop previousSorted ((currentSorted.take 20).enum) [] []

/-- `df['date'].unique()`: distinct dates in first-appearance order. -/
def uniqueGo : List String → List String → List String
  | [], _ => []
  | x :: tl, seen => if seen.contains x then uniqueGo tl seen else x :: uniqueGo tl (x :: seen)

/-- Distinct dates of a history. -/
def uniqueDates (df : List SRow) : List String := uniqueGo (df.map (·.date)) []

/-- Code-point lexicographic order on char lists (Python string `<`). -/
def listCharLt : List Char → List Char → Bool
  | [], [] => false
  | [], _ :: _ => true
  | _ :: _, [] => false
  | a :: as, b :: bs =>
    if a.toNat < b.toNat then true
    else if b.toNat < a.toNat then false
    else listCharLt as bs

/-- Python string `<` (code-point lexicographic; on ISO date strings
this is chronological order). -/
def pyStrLt (a b : String) : Bool := listCharLt a.data b.data

/-- Ascending insertion for `sorted(dates)`. -/
def insertAscStr (x : String) : List String → List String
  | [] => [x]
  | y :: tl => if pyStrLt x y then x :: y :: tl else y :: insertAscStr x tl

/-- `sorted(dates)`. -/
def sortStrAsc (l : List String) : List String := l.foldr insertAscStr []

/-- Per-period output: the `(rankings, writes)` pair for each category. -/
structure PeriodOut where
  games : List REntry × List (List REntry)
  movies : List REntry × List (List REntry)
deriving DecidableEq, Repr

/-- Compare two dates of the history for both categories. -/
def rankingsForDates (df : List SRow) (currentDate previousDate : String) : PeriodOut :=
  let currentData := df.filter (fun r => r.date == currentDate)
  let previousData := df.filter (fun r => r.date == previousDate)
  { games := calcRankingChanges (currentData.filter (fun r => r.category == "games"))
      (previousData.filter (fun r => r.category == "games")),
    movies := calcRankingChanges (currentData.filter (fun r => r.category == "movies"))
      (previousData.filter (fun r => r.category == "movies")) }

/-- `_generate_daily_rankings(df)`: needs at least 2 distinct dates and
compares the latest against the second latest. -/
def generateDailyRankings (df : List SRow) : Option PeriodOut :=
  let dates := uniqueDates df
  if 2 ≤ dates.length then
    let sorted := sortStrAsc dates
    some (rankingsForDates df (sorted.getLastD "") (sorted.getD (sorted.length - 2) ""))
  else none

/-- `_generate_weekly_rankings(df)`, including the inner fallback branch
(`previous_date = sorted_dates[0]`) exactly as in the source. -/
def generateWeeklyRankings (df : List SRow) : Option PeriodOut :=
  let dates := uniqueDates df
  if 7 ≤ dates.length then
    let sorted := sortStrAsc dates
    let previousDate :=
      if 7 ≤ sorted.length then sorted.getD (sorted.length - 7) "" else sorted.getD 0 ""
    some (rankingsForDates df (sorted.getLastD "") previousDate)
  else none

/-- The weekly generator with the dead fallback branch removed: the
previous date is always index `-7` of the ascending-sorted distinct
dates. -/
def generateWeeklyRankingsNoFallback (df : List SRow) : Option PeriodOut :=
  let dates := uniqueDates df
  if 7 ≤ dates.length then
    let sorted := sortStrAsc dates
    some (rankingsForDates df (sorted.getLastD "") (sorted.getD (sorted.length - 7) ""))
  else none

/-! ### History-file error handling (data_manager.py)

`update_summary_data` (lines 149-158) wraps the post-append read and
ranking generation in `try/except Exception`; `generate_chart_data`
(lines 280-327) dispatches on the exception raised while reading the
history.  We model the state of the history file and each phase's
observable effect. -/

/-- State of `summary_data.csv` when a phase tries to read it. -/
inductive FileState where
  | missing
  | malformed
  | good (rows : List SRow)
deriving Repr

/-- Observable effect of one phase on one run. -/
structure PhaseEffect where
  generated : Bool
  logged : Bool
  deletedFile : Bool
deriving DecidableEq, Repr

/-- Ranking phase (`update_summary_data` lines 149-158): any exception
from reading the summary file is caught, logged, and ranking generation
is skipped; the file is never deleted here. -/
def rankingPhase : FileState → PhaseEffect
  | .missing => ⟨false, true, false⟩
  | .malformed => ⟨false, true, false⟩
  | .good _ => ⟨true, false, false⟩

/-- Chart phase (`generate_chart_data`): `FileNotFoundError` logs and
skips without deleting; `ValueError`/`TypeError`/`ParserError` logs,
deletes the corrupted store and skips; an empty (or fully dropped)
frame logs a warning and skips. -/
def chartPhase : FileState → PhaseEffect
  | .missing => ⟨false, true, false⟩
  | .malformed => ⟨false, true, true⟩
  | .good rows => if rows.isEmpty then ⟨false, true, false⟩ else ⟨true, false, false⟩

/-! ### Spec-side definitions and concrete instances used by the claims -/

/-- Modelled from the spec: "that prefix (after whitespace collapsing)"
- collapse interior whitespace runs to single spaces and trim the ends.
Used only to compare the spec's description of the movie display title
with the source's behaviour. -/
def collapseWS (l : List Char) : List Char := pyStrip (reSub wsPlusRE [' '] l)

/-- The fallback branch of `get_movie_grouping_key` in isolation: both
the grouping key and the display derive from the aggressive `key`-mode
clean of the full title (placeholder handling included), used to state
that the no-year / empty-prefix cases fall back to it. -/
def movieKeyFallback (title : List Char) : List Char × List Char :=
  let base := clean_title title false
  let key0 := pyLower (removeWS base)
  let key1 := if key0.isEmpty then "unknown_movie_group".data else key0
  let d1 := if key0.isEmpty then (if base.isEmpty then displayOrTitle title else base) else base
  let d2 := if d1.isEmpty && key1 != "unknown_movie_group".data then displayOrTitle title else d1
  (key1, dropTrailingOpenBracket (pyStrip d2))

/-- Histories for the concrete counterexamples: two samples of title
`"A"` share the date `"2024-01-02"`. -/
def dfDupSample : List SRow :=
  [⟨"A", 50, 50, 100, "games", "2024-01-01", "T1"⟩,
   ⟨"A", 40, 40, 80, "games", "2024-01-02", "T2"⟩,
   ⟨"A", 35, 35, 70, "games", "2024-01-02", "T3"⟩,
   ⟨"B", 5, 5, 10, "games", "2024-01-02", "T4"⟩]

/-- A single summary row, for witnesses. -/
def rowOne : SRow := ⟨"A", 3, 2, 5, "games", "2024-01-01", "T1"⟩

/-- Two listings whose titles share a grouping key (case-insensitive)
but differ in display cleaning; the second has the higher peers. -/
def eldenItems : List RawItem :=
  [⟨"Elden RING", 1, 0, "x"⟩, ⟨"Elden Ring", 5, 0, "y"⟩]

/-- A minimal listing for witnesses. -/
def plainItem : RawItem := ⟨"aa", 1, 0, ""⟩

/-- A minimal similarity-clustering input for witnesses. -/
def simItemsW : List SimItem := [⟨"aa", 2, 1, 3⟩, ⟨"ab", 1, 1, 2⟩]

/-- The entity group produced from `[plainItem]` by the game grouping. -/
def plainGroup : EntityGroup :=
  ⟨⟨"aa", 1, 0, "aa"⟩, 1, 0, 1, [⟨"aa", 1, 0, ""⟩]⟩

/-- The first cluster produced from `simItemsW` by similarity grouping
under the never-similar predicate. -/
def simGroupW : SimGroup := ⟨⟨"aa", 2, 1, 3⟩, ["aa"], 2, 1, 3, [⟨"aa", 2, 1, 3⟩]⟩

/-- Invariant of the grouping dictionary of `scrape_data` after
processing a prefix of the listings: keys are unique, every processed
listing's key is present, and each entry holds exactly the processed
listings carrying its key (in arrival order), with the display string
derived from the first of them and exact running totals. -/
def GInv (keyFn : String → String × String) (processed : List RawItem)
    (acc : List (String × GAcc)) : Prop :=
  (acc.map Prod.fst).Nodup ∧
  (∀ it ∈ processed, ∃ p ∈ acc, p.1 = (keyFn it.title).1) ∧
  (∀ p ∈ acc,
    p.2.torrents = processed.filter (fun it => (keyFn it.title).1 == p.1) ∧
    p.2.torrents ≠ [] ∧
    (∀ m0 tl, p.2.torrents = m0 :: tl → p.2.display_title = (keyFn m0.title).2) ∧
    p.2.total_seeders = sumSeeders p.2.torrents ∧
    p.2.total_leechers = sumLeechers p.2.torrents ∧
    p.2.total_peers = sumMemberPeers p.2.torrents)

/-- Invariant of a similarity cluster during absorption: totals are the
exact sums over the member list, and every member comes from the input. -/
def SInvP (items : List SimItem) (g : SimGroup) : Prop :=
  g.total_seeders = sumSeedersSim g.versions ∧
  g.total_leechers = sumLeechersSim g.versions ∧
  g.total_peers = sumPeersSim g.versions ∧
  ∀ v ∈ g.versions, v ∈ items

/-! ## Theorems -/

/-- Insertion keeps the length. -/
theorem length_insertPeersDesc (x : SRow) (l : List SRow) :
    (insertPeersDesc x l).length = l.length + 1 := by
  induction l with
  | nil => rfl
  | cons y tl ih => simp only [insertPeersDesc]; split <;> simp [ih]

/-- Sorting by peers keeps the length. -/
theorem length_sortPeersDesc (l : List SRow) :
    (sortPeersDesc l).length = l.length := by
  induction l with
  | nil => rfl
  | cons y tl ih => simp only [sortPeersDesc, List.foldr_cons] at *
                    rw [length_insertPeersDesc, ih, List.length_cons]

/-- Membership through descending insertion (summary rows). -/
theorem mem_insertPeersDesc (x y : SRow) (l : List SRow) :
    x ∈ insertPeersDesc y l ↔ x = y ∨ x ∈ l := by
  induction l with
  | nil => simp [insertPeersDesc]
  | cons z tl ih =>
    simp only [insertPeersDesc]
    split
    · simp [List.mem_cons]
    · simp only [List.mem_cons, ih]
      tauto

/-- Descending insertion preserves descending order. -/
theorem pairwise_insertPeersDesc (x : SRow) (l : List SRow)
    (h : l.Pairwise (fun a b => b.peers ≤ a.peers)) :
    (insertPeersDesc x l).Pairwise (fun a b => b.peers ≤ a.peers) := by
  induction l with
  | nil => simp [insertPeersDesc]
  | cons y tl ih =>
    rcases List.pairwise_cons.mp h with ⟨hy, htl⟩
    simp only [insertPeersDesc]
    split
    · next hgt =>
      refine List.pairwise_cons.mpr ⟨?_, h⟩
      intro z hz
      rcases List.mem_cons.mp hz with rfl | hz2
      · omega
      · have := hy z hz2
        omega
    · next hle =>
      refine List.pairwise_cons.mpr ⟨?_, ih htl⟩
      intro z hz
      rcases (mem_insertPeersDesc z x tl).mp hz with rfl | hz2
      · omega
      · exact hy z hz2

/-- The peers sort produces a descending list. -/
theorem sortPeersDesc_sorted (l : List SRow) :
    (sortPeersDesc l).Pairwise (fun a b => b.peers ≤ a.peers) := by
  induction l with
  | nil => simp [sortPeersDesc]
  | cons x tl ih =>
    simp only [sortPeersDesc, List.foldr_cons] at *
    exact pairwise_insertPeersDesc x _ ih

/-- Insertion keeps the length (dates). -/
theorem length_insertAscStr (x : String) (l : List String) :
    (insertAscStr x l).length = l.length + 1 := by
  induction l with
  | nil => rfl
  | cons y tl ih => simp only [insertAscStr]; split <;> simp [ih]

/-- Sorting dates keeps the length. -/
theorem length_sortStrAsc (l : List String) :
    (sortStrAsc l).length = l.length := by
  induction l with
  | nil => rfl
  | cons y tl ih => simp only [sortStrAsc, List.foldr_cons] at *
                    rw [length_insertAscStr, ih, List.length_cons]

/-- Deduplication never lengthens a list. -/
theorem uniqueGo_length_le : ∀ (l : List String) (seen : List String),
    (uniqueGo l seen).length ≤ l.length := by
  intro l
  induction l with
  | nil => intro seen; simp [uniqueGo]
  | cons x tl ih =>
    intro seen
    simp only [uniqueGo]
    split
    · exact Nat.le_succ_of_le (ih seen)
    · simpa using Nat.succ_le_succ (ih (x :: seen))

/-- The ranking loop appends one entry per enumerated row. -/
theorem rankLoop_fst (p : List SRow) : ∀ (l : List (Nat × SRow)) racc wacc,
    (rankLoop p l racc wacc).1 = racc ++ l.map (fun q => mkREntry p q.1 q.2) := by
  intro l
  induction l with
  | nil => intro racc wacc; simp [rankLoop]
  | cons hd rest ih =>
    intro racc wacc
    obtain ⟨i, row⟩ := hd
    simp only [rankLoop, ih, List.map_cons, List.append_assoc, List.singleton_append]

/-- The ranking loop writes the artifact once per entry. -/
theorem rankLoop_writes_length (p : List SRow) : ∀ (l : List (Nat × SRow)) racc wacc,
    (rankLoop p l racc wacc).2.length = wacc.length + l.length := by
  intro l
  induction l with
  | nil => intro racc wacc; simp [rankLoop]
  | cons hd rest ih =>
    intro racc wacc
    obtain ⟨i, row⟩ := hd
    simp only [rankLoop, ih, List.length_append, List.length_cons, List.length_nil]
    omega

/-- The last artifact write of a nonempty loop is the full ranking list. -/
theorem rankLoop_last_write (p : List SRow) : ∀ (l : List (Nat × SRow)) racc wacc,
    l ≠ [] → (rankLoop p l racc wacc).2.getLastD [] = (rankLoop p l racc wacc).1 := by
  intro l
  induction l with
  | nil => intro racc wacc h; exact absurd rfl h
  | cons hd rest ih =>
    intro racc wacc _
    obtain ⟨i, row⟩ := hd
    by_cases hr : rest = []
    · subst hr
      simp [rankLoop, List.getLastD_concat]
    · simp only [rankLoop]
      exact ih _ _ hr

/-- Each entry's current rank is its 1-based sorted position. -/
theorem mkREntry_current_rank (p : List SRow) (i : Nat) (row : SRow) :
    (mkREntry p i row).current_rank = i + 1 := by
  cases h : prevRankOf p row.title <;> simp [mkREntry, h]

/-- Each entry carries its row's title. -/
theorem mkREntry_title (p : List SRow) (i : Nat) (row : SRow) :
    (mkREntry p i row).title = row.title := by
  cases h : prevRankOf p row.title <;> simp [mkREntry, h]

/-- Each entry carries its row's peers. -/
theorem mkREntry_peers (p : List SRow) (i : Nat) (row : SRow) :
    (mkREntry p i row).peers = row.peers := by
  cases h : prevRankOf p row.title <;> simp [mkREntry, h]

/-- C2: with at least 7 distinct dates the weekly generator compares the
latest date against index `-7` of the ascending-sorted distinct dates;
the inner `sorted_dates[0]` fallback is unreachable (the generator
equals its fallback-free version on every history), and with fewer than
7 distinct dates the weekly period is skipped entirely. -/
theorem weekly_fallback_unreachable_and_gate (df : List SRow) :
    generateWeeklyRankings df = generateWeeklyRankingsNoFallback df ∧
    ((uniqueDates df).length < 7 → generateWeeklyRankings df = none) := by
  constructor
  · by_cases h : 7 ≤ (uniqueDates df).length
    · simp only [generateWeeklyRankings, generateWeeklyRankingsNoFallback, if_pos h,
        length_sortStrAsc, if_pos h]
    · simp only [generateWeeklyRankings, generateWeeklyRankingsNoFallback, if_neg h]
  · intro h
    simp only [generateWeeklyRankings,
      if_neg (show ¬ 7 ≤ (uniqueDates df).length by omega)]

/-- C2 witness: the empty history has no weekly ranking. -/
theorem weekly_gate_witness : generateWeeklyRankings [] = none :=
  (weekly_fallback_unreachable_and_gate []).2 (by decide)

/-- C8: a malformed history file makes the ranking phase skip with a
logged error (no deletion there), and the chart phase log, delete the
corrupted store and skip; a missing history file skips both without any
deletion. -/
theorem history_error_handling :
    ((rankingPhase .malformed).generated = false ∧
     (chartPhase .malformed).generated = false ∧
     ((rankingPhase .malformed).logged || (chartPhase .malformed).logged) = true ∧
     (rankingPhase .malformed).deletedFile = false ∧
     (chartPhase .malformed).deletedFile = true) ∧
    ((rankingPhase .missing).generated = false ∧
     (chartPhase .missing).generated = false ∧
     (rankingPhase .missing).deletedFile = false ∧
     (chartPhase .missing).deletedFile = false) := by
  decide

set_option maxRecDepth 100000 in
/-- C4: the `key`-mode normalization is not idempotent: stripping the
apostrophe from `"Rep'ack"` forms the token `repack`, which a second
pass removes entirely, contradicting the spec's idempotence invariant. -/
theorem key_normalization_not_idempotent :
    cleanTitleKeyS "Rep'ack" = "repack" ∧
    cleanTitleKeyS (cleanTitleKeyS "Rep'ack") = "" ∧
    cleanTitleKeyS (cleanTitleKeyS "Rep'ack") ≠ cleanTitleKeyS "Rep'ack" :=
  ⟨by decide, by decide, by decide⟩

/-- C9: the emitted ranking list has at most 20 entries, its
`current_rank` values are exactly `1, 2, 3, ...` in sorted position
order (hence strictly ascending), its entries appear in
peers-descending order (the top rows of the peers sort), and a
shortfall below 20 can only happen when the current period has fewer
than 20 distinct titles. -/
theorem ranking_top20_sorted (cur prev : List SRow) :
    (calcRankingChanges cur prev).1.length ≤ 20 ∧
    (calcRankingChanges cur prev).1.map (·.current_rank) =
      List.range' 1 (min 20 cur.length) ∧
    ((calcRankingChanges cur prev).1.map (·.peers)).Pairwise (fun a b => b ≤ a) ∧
    ((calcRankingChanges cur prev).1.length < 20 →
      (uniqueGo (cur.map (·.title)) []).length < 20) := by
  have hmap : (calcRankingChanges cur prev).1.map (·.current_rank) =
      List.range' 1 (min 20 cur.length) := by
    simp only [calcRankingChanges, rankLoop_fst, List.nil_append, List.map_map]
    have hc : ((fun e : REntry => e.current_rank) ∘
        fun q : Nat × SRow => mkREntry (sortPeersDesc prev) q.1 q.2) =
        (fun n : Nat => n + 1) ∘ Prod.fst :=
      funext fun q => mkREntry_current_rank _ _ _
    rw [hc, ← List.map_map, List.enum_map_fst, List.length_take, length_sortPeersDesc]
    have ha : (fun n : Nat => n + 1) = fun n : Nat => 1 + n :=
      funext fun n => Nat.add_comm n 1
    rw [ha, ← List.range'_eq_map_range]
  have hlen : (calcRankingChanges cur prev).1.length = min 20 cur.length := by
    have := congrArg List.length hmap
    simpa using this
  refine ⟨by omega, hmap, ?_, ?_⟩
  · have hpeers : (calcRankingChanges cur prev).1.map (·.peers) =
        ((sortPeersDesc cur).take 20).map (·.peers) := by
      simp only [calcRankingChanges, rankLoop_fst, List.nil_append, List.map_map]
      have hp : ((fun e : REntry => e.peers) ∘
          fun q : Nat × SRow => mkREntry (sortPeersDesc prev) q.1 q.2) =
          (fun r : SRow => r.peers) ∘ Prod.snd :=
        funext fun q => mkREntry_peers _ _ _
      rw [hp, ← List.map_map, List.enum_map_snd]
    rw [hpeers, List.pairwise_map]
    exact (sortPeersDesc_sorted cur).sublist (List.take_sublist 20 _)
  · intro h
    have h2 := uniqueGo_length_le (cur.map (·.title)) []
    simp only [List.length_map] at h2
    omega

/-- C9 witness: a one-row period yields fewer than 20 entries and
correspondingly has fewer than 20 distinct titles. -/
theorem ranking_top20_witness :
    (uniqueGo ([rowOne].map (·.title)) []).length < 20 :=
  (ranking_top20_sorted [rowOne] []).2.2.2 (by decide)

/-- C10: an empty current period performs no artifact write at all (the
file on disk is untouched because no write event occurs); a nonempty
period writes the artifact once per ranked entry and the last write
holds the full ranking list. -/
theorem artifact_written_inside_loop (cur prev : List SRow) :
    (cur = [] → (calcRankingChanges cur prev).2 = []) ∧
    (calcRankingChanges cur prev).2.length = (calcRankingChanges cur prev).1.length ∧
    (cur ≠ [] → (calcRankingChanges cur prev).2.getLastD [] =
      (calcRankingChanges cur prev).1) := by
  refine ⟨?_, ?_, ?_⟩
  · intro h; subst h; rfl
  · simp only [calcRankingChanges, rankLoop_writes_length, rankLoop_fst,
      List.length_nil, List.nil_append, List.length_map, Nat.zero_add]
  · intro h
    simp only [calcRankingChanges]
    apply rankLoop_last_write
    intro hne
    have hlen := congrArg List.length hne
    have hpos : 0 < cur.length := List.length_pos.mpr h
    simp only [List.enum_length, List.length_take, length_sortPeersDesc,
      List.length_nil] at hlen
    omega

/-- C10 witness: no write for an empty period; last write equals the
full list for a one-row period. -/
theorem artifact_written_inside_loop_witness :
    (calcRankingChanges [] []).2 = [] ∧
    (calcRankingChanges [rowOne] []).2.getLastD [] = (calcRankingChanges [rowOne] []).1 :=
  ⟨(artifact_written_inside_loop [] []).1 rfl,
   (artifact_written_inside_loop [rowOne] []).2.2 (by decide)⟩

/-- C1 counterexample: with two same-date samples of title `"A"`, the
daily ranking lists `"A"` twice - the computation does not deduplicate
a compared date to one row per title. -/
theorem ranking_dedup_counterexample :
    (generateDailyRankings dfDupSample).map (fun o => o.games.1.map (·.title)) =
      some ["A", "A", "B"] ∧
    ¬ (["A", "A", "B"] : List String).Nodup :=
  ⟨by decide, by decide⟩

/-- C1 (amended): the ranking computation performs no per-title
deduplication: the emitted entries correspond one to one, in order, to
the first `min 20 n` rows of the peers-descending sort of the compared
date's raw rows, so a title sampled several times on that date appears
once per such row. -/
theorem ranking_no_dedup (cur prev : List SRow) :
    (calcRankingChanges cur prev).1.map (·.title) =
      ((sortPeersDesc cur).take 20).map (·.title) := by
  simp only [calcRankingChanges, rankLoop_fst, List.nil_append, List.map_map]
  have ht : ((fun e : REntry => e.title) ∘
      fun q : Nat × SRow => mkREntry (sortPeersDesc prev) q.1 q.2) =
      (fun r : SRow => r.title) ∘ Prod.snd :=
    funext fun q => mkREntry_title _ _ _
  rw [ht, ← List.map_map, List.enum_map_snd]

/-- The display fallback never returns an empty string for a nonempty title. -/
theorem displayOrTitle_ne_nil (t : List Char) (h : t ≠ []) : displayOrTitle t ≠ [] := by
  show (if (clean_title t true).isEmpty = true then t else clean_title t true) ≠ []
  split
  · exact h
  · next h2 => simpa [List.isEmpty_iff] using h2

/-- The final display cleanup never returns an empty string for a
nonempty title, whatever the suffix removal left over. -/
theorem gameDisplayFinal_ne_nil (title temp : List Char) (h : title ≠ []) :
    gameDisplayFinal title temp ≠ [] := by
  show (if (pyStrip (reSub gameTrailRE [] temp)).isEmpty = true
        then displayOrTitle title else pyStrip (reSub gameTrailRE [] temp)) ≠ []
  split
  · exact displayOrTitle_ne_nil title h
  · next h2 => simpa [List.isEmpty_iff] using h2

set_option maxRecDepth 40000 in
/-- C6: for a title that is not empty or whitespace-only, the game
display derivation never returns an empty string - when cleaning
removes everything it falls back to `clean_title(title, True) or title`. -/
theorem display_never_empty (t : String)
    (h : t.data.any (fun c => !isWS c) = true) :
    (gameGroupingKeyS t).2 ≠ "" := by
  have hne : t.data ≠ [] := by
    intro he
    rw [he] at h
    simp at h
  intro he
  rw [gameGroupingKeyS, get_game_grouping_key,
      show ("" : String) = String.mk [] from rfl] at he
  injection he with hB
  simp only [] at hB
  exact gameDisplayFinal_ne_nil t.data _ hne hB

/-- C6 witness: a plain title keeps a nonempty display string. -/
theorem display_never_empty_witness : (gameGroupingKeyS "aa").2 ≠ "" :=
  display_never_empty "aa" (by decide)

/-- Removing all whitespace is insensitive to a leading whitespace drop. -/
theorem removeWS_dropWhile (l : List Char) :
    removeWS (l.dropWhile isWS) = removeWS l := by
  induction l with
  | nil => rfl
  | cons c tl ih =>
    by_cases hc : isWS c
    · simpa [removeWS, List.dropWhile_cons, hc] using ih
    · simp [removeWS, List.dropWhile_cons, hc]

/-- Removing all whitespace commutes with reversal. -/
theorem removeWS_reverse (l : List Char) :
    removeWS l.reverse = (removeWS l).reverse := by
  simp [removeWS, List.filter_reverse]

/-- Stripping only removes whitespace, so it cannot change the
whitespace-free residue. -/
theorem removeWS_pyStrip (l : List Char) : removeWS (pyStrip l) = removeWS l := by
  unfold pyStrip
  rw [removeWS_reverse, removeWS_dropWhile, removeWS_reverse, List.reverse_reverse,
    removeWS_dropWhile]

/-- A list of pure whitespace strips to nothing. -/
theorem pyStrip_eq_nil_of_all (l : List Char) (h : ∀ c ∈ l, isWS c = true) :
    pyStrip l = [] := by
  unfold pyStrip
  rw [show l.dropWhile isWS = [] from List.dropWhile_eq_nil_iff.mpr (by simpa using h)]
  rfl

/-- The whitespace-free residue is empty iff everything was whitespace. -/
theorem removeWS_eq_nil_iff (l : List Char) :
    removeWS l = [] ↔ ∀ c ∈ l, isWS c = true := by
  unfold removeWS
  rw [List.filter_eq_nil_iff]
  constructor
  · intro h c hc
    have := h c hc
    simpa using this
  · intro h c hc
    simpa using h c hc

/-- The split loop never forgets a word in progress. -/
theorem pySplitGo_ne_nil : ∀ (s cur : List Char), cur ≠ [] → pySplitGo s cur ≠ [] := by
  intro s
  induction s with
  | nil =>
    intro cur h
    simp [pySplitGo, List.isEmpty_iff, h]
  | cons c tl ih =>
    intro cur h
    by_cases hc : isWS c
    · simp [pySplitGo, hc, List.isEmpty_iff, h]
    · simpa [pySplitGo, hc] using ih (c :: cur) (by simp)

/-- A string containing a non-whitespace character splits into at least
one token. -/
theorem pySplit_ne_nil_of_mem (s : List Char) (c : Char) (hc : c ∈ s)
    (hcw : isWS c = false) : pySplit s ≠ [] := by
  induction s with
  | nil => cases hc
  | cons d tl ih =>
    by_cases hd : isWS d
    · have hct : c ∈ tl := by
        rcases List.mem_cons.mp hc with h | h
        · subst h; rw [hd] at hcw; cases hcw
        · exact h
      simpa [pySplit, pySplitGo, hd] using ih hct
    · simpa [pySplit, pySplitGo, hd] using pySplitGo_ne_nil tl [d] (by simp)

/-- C7 (amended): movie key derivation.  When a year token
`\b(19\d{2}|20\d{2})\b` is found and a nonempty (end-stripped) prefix
precedes it, the grouping key is that prefix lowercased with all
whitespace removed and the display title is the same prefix
end-stripped with one trailing `'('` or `'['` dropped - interior
whitespace of the prefix is preserved, not collapsed.  When no year is
found or the prefix is empty, key and display both fall back to the
aggressive `key`-mode transformation of the full title.  Every year
token accepted is of the form `19xx` or `20xx`, i.e. in 1900-2099. -/
theorem movie_key_structure (t : List Char) :
    (∀ (i : Nat) (p : List Char), findYearIdx (dotsToSpaces t) = some i →
      p = pyStrip ((dotsToSpaces t).take i) → p ≠ [] →
      get_movie_grouping_key t =
        (pyLower (removeWS p), dropTrailingOpenBracket (pyStrip p))) ∧
    ((match findYearIdx (dotsToSpaces t) with
      | some i => pyStrip ((dotsToSpaces t).take i) = []
      | none => True) →
      get_movie_grouping_key t = movieKeyFallback t) ∧
    (∀ (prev : Option Char) (s : List Char), yearAt prev s = true →
      ∃ c1 c2 c3 c4 rest, s = c1 :: c2 :: c3 :: c4 :: rest ∧
        ((c1 = '1' ∧ c2 = '9') ∨ (c1 = '2' ∧ c2 = '0')) ∧
        c3.isDigit = true ∧ c4.isDigit = true) := by
  refine ⟨?_, ?_, ?_⟩
  · intro i p hfind hp hpne
    have hrw : removeWS p ≠ [] := by
      intro h0
      apply hpne
      rw [hp]
      rw [hp, removeWS_pyStrip] at h0
      exact pyStrip_eq_nil_of_all _ ((removeWS_eq_nil_iff _).mp h0)
    obtain ⟨c, hcmem, hcw⟩ : ∃ c ∈ p, isWS c = false := by
      rcases hres : removeWS p with _ | ⟨d, ds⟩
      · exact absurd hres hrw
      · have hd : d ∈ removeWS p := by rw [hres]; exact List.mem_cons_self d ds
        have := List.mem_filter.mp hd
        exact ⟨d, this.1, by simpa using this.2⟩
    have hsplit : pySplit p ≠ [] := pySplit_ne_nil_of_mem p c hcmem hcw
    have hkey : pyLower (removeWS p) ≠ [] := by
      simpa [pyLower, List.map_eq_nil_iff] using hrw
    have hpE : p.isEmpty = false := List.isEmpty_eq_false.mpr hpne
    have hkeyE : (pyLower (removeWS p)).isEmpty = false := List.isEmpty_eq_false.mpr hkey
    have hsplen : 1 ≤ (pySplit p).length := List.length_pos.mpr hsplit
    have hcond : (!p.isEmpty && decide (1 ≤ (pySplit p).length)) = true := by
      simp [hpE, hsplen]
    simp only [get_movie_grouping_key, hfind, ← hp]
    rw [if_pos hcond]
    simp [hkeyE, hpE]
  · intro hcase
    cases hfind : findYearIdx (dotsToSpaces t) with
    | none => simp only [get_movie_grouping_key, hfind, movieKeyFallback]
    | some i =>
      rw [hfind] at hcase
      simp only [get_movie_grouping_key, hfind, hcase, movieKeyFallback]
      simp
  · intro prev s h
    match s with
    | [] => simp [yearAt] at h
    | [c1] => simp [yearAt] at h
    | [c1, c2] => simp [yearAt] at h
    | [c1, c2, c3] => simp [yearAt] at h
    | c1 :: c2 :: c3 :: c4 :: rest =>
      simp only [yearAt, Bool.and_eq_true, Bool.or_eq_true, beq_iff_eq] at h
      exact ⟨c1, c2, c3, c4, rest, rfl, h.1.1.1.2, h.1.1.2, h.1.2⟩

/-- C7 counterexample: on `"A  B 1984"` the display title keeps the
double space of the prefix, while the claim's whitespace-collapsed
prefix is `"A B"`. -/
theorem movie_display_not_collapsed :
    findYearIdx (dotsToSpaces "A  B 1984".data) = some 5 ∧
    (movieGroupingKeyS "A  B 1984").2 = "A  B" ∧
    String.mk (collapseWS (pyStrip ((dotsToSpaces "A  B 1984".data).take 5))) = "A B" ∧
    (movieGroupingKeyS "A  B 1984").2 ≠
      String.mk (collapseWS (pyStrip ((dotsToSpaces "A  B 1984".data).take 5))) :=
  ⟨by decide, by decide, by decide, by decide⟩

/-- C7 witness: a year with a plain prefix takes the prefix branch. -/
theorem movie_key_structure_witness :
    get_movie_grouping_key "A Movie 2020".data =
      (pyLower (removeWS (pyStrip ((dotsToSpaces "A Movie 2020".data).take 8))),
       dropTrailingOpenBracket (pyStrip (pyStrip ((dotsToSpaces "A Movie 2020".data).take 8)))) :=
  (movie_key_structure "A Movie 2020".data).1 8 _ (by decide) rfl (by decide)

/-- Per-member peers split into seeders and leechers. -/
theorem sumMemberPeers_eq (l : List RawItem) :
    sumMemberPeers l = sumSeeders l + sumLeechers l := by
  induction l with
  | nil => rfl
  | cons x tl ih =>
    simp only [sumMemberPeers, sumSeeders, sumLeechers, List.map_cons, List.sum_cons] at *
    omega

/-- Appending a member extends the seeders sum. -/
theorem sumSeeders_append (l : List RawItem) (x : RawItem) :
    sumSeeders (l ++ [x]) = sumSeeders l + x.seeders := by
  simp [sumSeeders]

/-- Appending a member extends the leechers sum. -/
theorem sumLeechers_append (l : List RawItem) (x : RawItem) :
    sumLeechers (l ++ [x]) = sumLeechers l + x.leechers := by
  simp [sumLeechers]

/-- Appending a member extends the peers sum. -/
theorem sumMemberPeers_append (l : List RawItem) (x : RawItem) :
    sumMemberPeers (l ++ [x]) = sumMemberPeers l + (x.seeders + x.leechers) := by
  simp [sumMemberPeers]

/-- One grouping-loop iteration preserves the dictionary invariant. -/
theorem stepGroup_inv (keyFn : String → String × String) (processed : List RawItem)
    (acc : List (String × GAcc)) (it : RawItem) (hinv : GInv keyFn processed acc) :
    GInv keyFn (processed ++ [it]) (stepGroup keyFn acc it) := by
  obtain ⟨hnd, hcov, hent⟩ := hinv
  by_cases hfind : (acc.find? (fun p => p.1 == (keyFn it.title).1)).isSome = true
  · -- the key already exists: the dict keys are unchanged and the
    -- matching entry absorbs the listing
    have hstep : stepGroup keyFn acc it =
        acc.map (fun p => if p.1 == (keyFn it.title).1
          then (p.1, addToGroup p.2 it) else p) := by
      simp only [stepGroup, if_pos hfind]
    have hfst : ∀ p : String × GAcc,
        ((fun p => if p.1 == (keyFn it.title).1
          then (p.1, addToGroup p.2 it) else p) p).1 = p.1 := by
      intro p
      by_cases h : (p.1 == (keyFn it.title).1) = true <;> simp [h]
    rw [hstep]
    refine ⟨?_, ?_, ?_⟩
    · rw [List.map_map]
      have heq : (Prod.fst ∘ fun p : String × GAcc =>
          if p.1 == (keyFn it.title).1 then (p.1, addToGroup p.2 it) else p) =
          Prod.fst := funext hfst
      rw [heq]
      exact hnd
    · intro it2 hit2
      rcases List.mem_append.mp hit2 with h | h
      · obtain ⟨p, hp, hpk⟩ := hcov it2 h
        exact ⟨_, List.mem_map_of_mem _ hp, by rw [hfst p]; exact hpk⟩
      · obtain rfl := List.mem_singleton.mp h
        obtain ⟨x, hx, hxk⟩ := List.find?_isSome.mp hfind
        exact ⟨_, List.mem_map_of_mem _ hx, by rw [hfst x]; exact eq_of_beq hxk⟩
    · intro q hq
      obtain ⟨p, hp, rfl⟩ := List.mem_map.mp hq
      obtain ⟨htor, hne, hdisp, hs, hl, hpe⟩ := hent p hp
      by_cases hpk : (p.1 == (keyFn it.title).1) = true
      · have hkeq : p.1 = (keyFn it.title).1 := eq_of_beq hpk
        obtain ⟨a, as, haas⟩ := List.exists_cons_of_ne_nil hne
        have hitk : ((keyFn it.title).1 == p.1) = true := by rw [hkeq]; exact beq_self_eq_true _
        simp only [if_pos hpk]
        refine ⟨?_, ?_, ?_, ?_, ?_, ?_⟩
        · show p.2.torrents ++ [it] = _
          rw [List.filter_append, ← htor]
          simp [List.filter, hitk]
        · simp [addToGroup]
        · intro m0 tl0 hcons
          have hlist : a :: (as ++ [it]) = m0 :: tl0 := by
            simpa [addToGroup, haas] using hcons
          injection hlist with h1 h2
          rw [← h1]
          exact hdisp a as haas
        · show p.2.total_seeders + it.seeders = sumSeeders (p.2.torrents ++ [it])
          rw [hs, sumSeeders_append]
        · show p.2.total_leechers + it.leechers = sumLeechers (p.2.torrents ++ [it])
          rw [hl, sumLeechers_append]
        · show p.2.total_peers + (it.seeders + it.leechers) =
            sumMemberPeers (p.2.torrents ++ [it])
          rw [hpe, sumMemberPeers_append]
      · have hkne : ((keyFn it.title).1 == p.1) = false := by
          rw [beq_eq_false_iff_ne]
          intro h
          exact hpk (by rw [h]; exact beq_self_eq_true _)
        simp only [if_neg hpk]
        refine ⟨?_, hne, hdisp, hs, hl, hpe⟩
        rw [htor, List.filter_append]
        simp [List.filter, hkne]
  · -- new key: a fresh entry is appended and absorbs the listing alone
    have hnone : acc.find? (fun p => p.1 == (keyFn it.title).1) = none :=
      Option.not_isSome_iff_eq_none.mp hfind
    have hnotin : ∀ p ∈ acc, p.1 ≠ (keyFn it.title).1 := by
      intro p hp h
      have := List.find?_eq_none.mp hnone p hp
      exact this (by rw [h]; exact beq_self_eq_true _)
    have hstep : stepGroup keyFn acc it =
        acc ++ [((keyFn it.title).1,
          addToGroup ⟨(keyFn it.title).2, [], 0, 0, 0⟩ it)] := by
      simp only [stepGroup, hnone, Option.isSome_none]
      rw [if_neg Bool.false_ne_true, List.map_append]
      congr 1
      · have hpt : ∀ p ∈ acc,
            (if (p.1 == (keyFn it.title).1) = true
              then (p.1, addToGroup p.2 it) else p) = id p := by
          intro p hp
          have hb : (p.1 == (keyFn it.title).1) = false :=
            beq_eq_false_iff_ne.mpr (hnotin p hp)
          simp [hb]
        exact (List.map_congr_left hpt).trans (List.map_id acc)
      · simp
    rw [hstep]
    refine ⟨?_, ?_, ?_⟩
    · rw [List.map_append]
      rw [List.nodup_append]
      refine ⟨hnd, by simp, ?_⟩
      intro a ha hb
      simp only [List.map_cons, List.map_nil, List.mem_singleton] at hb
      obtain ⟨p, hp, rfl⟩ := List.mem_map.mp ha
      exact hnotin p hp hb
    · intro it2 hit2
      rcases List.mem_append.mp hit2 with h | h
      · obtain ⟨p, hp, hpk⟩ := hcov it2 h
        exact ⟨p, List.mem_append_left _ hp, hpk⟩
      · obtain rfl := List.mem_singleton.mp h
        exact ⟨_, List.mem_append_right _ (List.mem_singleton_self _), rfl⟩
    · intro q hq
      rcases List.mem_append.mp hq with h | h
      · obtain ⟨htor, hne, hdisp, hs, hl, hpe⟩ := hent q h
        have hkne : ((keyFn it.title).1 == q.1) = false := by
          rw [beq_eq_false_iff_ne]
          intro hcontra
          exact hnotin q h hcontra.symm
        refine ⟨?_, hne, hdisp, hs, hl, hpe⟩
        rw [htor, List.filter_append]
        simp [List.filter, hkne]
      · obtain rfl := List.mem_singleton.mp h
        have hfilnil : processed.filter
            (fun it2 => (keyFn it2.title).1 == (keyFn it.title).1) = [] := by
          rw [List.filter_eq_nil_iff]
          intro it2 hit2 hbeq
          obtain ⟨p, hp, hpk⟩ := hcov it2 hit2
          exact hnotin p hp (hpk.trans (eq_of_beq hbeq))
        refine ⟨?_, by simp [addToGroup], ?_, ?_, ?_, ?_⟩
        · show [] ++ [it] = _
          rw [List.filter_append, hfilnil]
          simp [List.filter]
        · intro m0 tl0 hcons
          have : it = m0 := by
            simpa [addToGroup] using congrArg List.head? hcons
          rw [← this]
          rfl
        · simp [addToGroup, sumSeeders]
        · simp [addToGroup, sumLeechers]
        · simp [addToGroup, sumMemberPeers]

/-- The grouping dictionary of `scrape_data` satisfies the invariant. -/
theorem buildGroupsMap_inv (keyFn : String → String × String) (items : List RawItem) :
    GInv keyFn items (buildGroupsMap keyFn items) := by
  suffices h : ∀ (l : List RawItem) (processed : List RawItem) (acc : List (String × GAcc)),
      GInv keyFn processed acc →
      GInv keyFn (processed ++ l) (l.foldl (stepGroup keyFn) acc) by
    simpa using h items [] [] (by refine ⟨List.nodup_nil, ?_, ?_⟩ <;> simp)
  intro l
  induction l with
  | nil => intro processed acc hinv; simpa using hinv
  | cons it rest ih =>
    intro processed acc hinv
    have h1 := stepGroup_inv keyFn processed acc it hinv
    have h2 := ih (processed ++ [it]) (stepGroup keyFn acc it) h1
    simpa using h2

/-- Appending a version extends the seeders sum. -/
theorem sumSeedersSim_append (l : List SimItem) (x : SimItem) :
    sumSeedersSim (l ++ [x]) = sumSeedersSim l + x.seeders := by
  simp [sumSeedersSim]

/-- Appending a version extends the leechers sum. -/
theorem sumLeechersSim_append (l : List SimItem) (x : SimItem) :
    sumLeechersSim (l ++ [x]) = sumLeechersSim l + x.leechers := by
  simp [sumLeechersSim]

/-- Appending a version extends the peers sum. -/
theorem sumPeersSim_append (l : List SimItem) (x : SimItem) :
    sumPeersSim (l ++ [x]) = sumPeersSim l + x.total_peers := by
  simp [sumPeersSim]

/-- When every member satisfies `total_peers = seeders + leechers`, the
peers sum splits into the seeders and leechers sums. -/
theorem sumPeersSim_split (l : List SimItem)
    (h : ∀ v ∈ l, v.total_peers = v.seeders + v.leechers) :
    sumPeersSim l = sumSeedersSim l + sumLeechersSim l := by
  induction l with
  | nil => rfl
  | cons x tl ih =>
    simp only [sumPeersSim, sumSeedersSim, sumLeechersSim, List.map_cons, List.sum_cons] at *
    have hx := h x (List.mem_cons_self x tl)
    have ht := ih (fun v hv => h v (List.mem_cons_of_mem x hv))
    omega

/-- Membership through descending insertion. -/
theorem mem_insertPeersDescSim (x y : SimItem) (l : List SimItem) :
    x ∈ insertPeersDescSim y l ↔ x = y ∨ x ∈ l := by
  induction l with
  | nil => simp [insertPeersDescSim]
  | cons z tl ih =>
    simp only [insertPeersDescSim]
    split
    · simp [List.mem_cons]
    · simp only [List.mem_cons, ih]
      tauto

/-- Sorting by peers preserves the member set. -/
theorem mem_sortPeersDescSim (x : SimItem) (l : List SimItem) :
    x ∈ sortPeersDescSim l ↔ x ∈ l := by
  induction l with
  | nil => simp [sortPeersDescSim]
  | cons z tl ih =>
    simp only [sortPeersDescSim, List.foldr_cons] at *
    rw [mem_insertPeersDescSim]
    simp [ih]

/-- Second components of an enumeration are members of the list. -/
theorem mem_enumFrom_snd : ∀ (l : List SimItem) (n : Nat) (p : Nat × SimItem),
    p ∈ l.enumFrom n → p.2 ∈ l := by
  intro l
  induction l with
  | nil => intro n p h; cases h
  | cons x tl ih =>
    intro n p h
    simp only [List.enumFrom] at h
    rcases List.mem_cons.mp h with h1 | h1
    · rw [h1]; exact List.mem_cons_self x tl
    · exact List.mem_cons_of_mem x (ih (n + 1) p h1)

/-- One absorption step preserves the cluster invariant. -/
theorem absorbStep_inv (items : List SimItem) (simOK : String → String → Bool)
    (rt : String) (i : Nat) (st : SimGroup × List Nat) (x : Nat × SimItem)
    (hx : x.2 ∈ items) (hst : SInvP items st.1) :
    SInvP items (absorbStep simOK rt i st x).1 := by
  obtain ⟨g, proc⟩ := st
  obtain ⟨j, other⟩ := x
  obtain ⟨h1, h2, h3, h4⟩ := hst
  simp only [absorbStep]
  split
  · exact ⟨h1, h2, h3, h4⟩
  · split
    · refine ⟨?_, ?_, ?_, ?_⟩
      · show g.total_seeders + other.seeders = sumSeedersSim (g.versions ++ [other])
        rw [sumSeedersSim_append, h1]
      · show g.total_leechers + other.leechers = sumLeechersSim (g.versions ++ [other])
        rw [sumLeechersSim_append, h2]
      · show g.total_peers + other.total_peers = sumPeersSim (g.versions ++ [other])
        rw [sumPeersSim_append, h3]
      · intro v hv
        rcases List.mem_append.mp hv with h | h
        · exact h4 v h
        · rw [List.mem_singleton.mp h]; exact hx
    · exact ⟨h1, h2, h3, h4⟩

/-- The absorption fold preserves the cluster invariant. -/
theorem foldl_absorb_inv (items : List SimItem) (simOK : String → String → Bool)
    (rt : String) (i : Nat) :
    ∀ (all : List (Nat × SimItem)) (st : SimGroup × List Nat),
      (∀ x ∈ all, x.2 ∈ items) → SInvP items st.1 →
      SInvP items (all.foldl (absorbStep simOK rt i) st).1 := by
  intro all
  induction all with
  | nil => intro st h hst; simpa using hst
  | cons x xs ih =>
    intro st h hst
    simp only [List.foldl_cons]
    exact ih _ (fun y hy => h y (List.mem_cons_of_mem x hy))
      (absorbStep_inv items simOK rt i st x (h x (List.mem_cons_self x xs)) hst)

/-- Every cluster produced by the outer loop satisfies the invariant. -/
theorem gsiOuter_inv (items : List SimItem) (simOK : String → String → Bool) :
    ∀ (outer all : List (Nat × SimItem)) (proc : List Nat),
      (∀ x ∈ outer, x.2 ∈ items) → (∀ x ∈ all, x.2 ∈ items) →
      ∀ g ∈ gsiOuter simOK outer all proc, SInvP items g := by
  intro outer
  induction outer with
  | nil => intro all proc h1 h2 g hg; cases hg
  | cons x rest ih =>
    intro all proc h1 h2 g hg
    obtain ⟨i, it⟩ := x
    simp only [gsiOuter] at hg
    split at hg
    · exact ih all proc (fun y hy => h1 y (List.mem_cons_of_mem _ hy)) h2 g hg
    · rcases List.mem_cons.mp hg with h | h
      · rw [h]
        refine foldl_absorb_inv items simOK it.title i all _ h2 ?_
        refine ⟨by simp [sumSeedersSim], by simp [sumLeechersSim], by simp [sumPeersSim], ?_⟩
        intro v hv
        rw [List.mem_singleton.mp hv]
        exact h1 (i, it) (List.mem_cons_self _ _)
      · exact ih all _ (fun y hy => h1 y (List.mem_cons_of_mem _ hy)) h2 g h

/-- C3: for every entity group of either grouping strategy,
`totalPeers = totalSeeders + totalLeechers`, and each total equals the
sum of the corresponding field over the group's members (for the
similarity strategy, under the scrapers' guarantee that every listing
carries `total_peers = seeders + leechers`). -/
theorem grouping_totals :
    (∀ (keyFn : String → String × String) (items : List RawItem),
      ∀ g ∈ groupByKeyFn keyFn items,
        g.total_peers = g.total_seeders + g.total_leechers ∧
        g.total_seeders = sumSeeders g.torrents ∧
        g.total_leechers = sumLeechers g.torrents ∧
        g.total_peers = sumMemberPeers g.torrents) ∧
    (∀ (simOK : String → String → Bool) (items : List SimItem),
      (∀ x ∈ items, x.total_peers = x.seeders + x.leechers) →
      ∀ g ∈ group_similar_items simOK items,
        g.total_peers = g.total_seeders + g.total_leechers ∧
        g.total_seeders = sumSeedersSim g.versions ∧
        g.total_leechers = sumLeechersSim g.versions ∧
        g.total_peers = sumPeersSim g.versions) := by
  constructor
  · intro keyFn items g hg
    obtain ⟨p, hp, he⟩ := List.mem_filterMap.mp hg
    obtain ⟨-, -, hent⟩ := buildGroupsMap_inv keyFn items
    obtain ⟨htor, hne, hdisp, hs, hl, hpe⟩ := hent p hp
    rcases hmax : pyMaxPeers p.2.torrents with _ | rep
    · rw [mkEntityGroup, hmax] at he; cases he
    · rw [mkEntityGroup, hmax] at he
      obtain rfl := (Option.some.injEq _ _ ▸ he : _ = g)
      refine ⟨?_, ?_, ?_, ?_⟩
      · show p.2.total_peers = p.2.total_seeders + p.2.total_leechers
        rw [hs, hl, hpe, sumMemberPeers_eq]
      · exact hs
      · exact hl
      · exact hpe
  · intro simOK items hitems g hg
    simp only [group_similar_items] at hg
    split at hg
    · cases hg
    · have hmem : ∀ x ∈ (sortPeersDescSim items).enum, x.2 ∈ items := by
        intro x hx
        exact (mem_sortPeersDescSim _ _).mp
          (mem_enumFrom_snd (sortPeersDescSim items) 0 x (by simpa [List.enum] using hx))
      obtain ⟨hs, hl, hp, hv⟩ := gsiOuter_inv items simOK _ _ [] hmem hmem g hg
      refine ⟨?_, hs, hl, hp⟩
      rw [hp, hl, hs, sumPeersSim_split _ (fun v hv2 => hitems v (hv v hv2))]

set_option maxRecDepth 1000000 in
/-- C3 witness: the invariant evaluated on concrete groups of both
strategies. -/
theorem grouping_totals_witness :
    (plainGroup.total_peers = plainGroup.total_seeders + plainGroup.total_leechers ∧
     plainGroup.total_seeders = sumSeeders plainGroup.torrents ∧
     plainGroup.total_leechers = sumLeechers plainGroup.torrents ∧
     plainGroup.total_peers = sumMemberPeers plainGroup.torrents) ∧
    (simGroupW.total_peers = simGroupW.total_seeders + simGroupW.total_leechers ∧
     simGroupW.total_seeders = sumSeedersSim simGroupW.versions ∧
     simGroupW.total_leechers = sumLeechersSim simGroupW.versions ∧
     simGroupW.total_peers = sumPeersSim simGroupW.versions) :=
  ⟨grouping_totals.1 gameGroupingKeyS [plainItem] plainGroup (by decide),
   grouping_totals.2 (fun _ _ => false) simItemsW (by decide) simGroupW (by decide)⟩

/-- C5 (amended): in the exact-key grouping of `scrape_data`, a group's
members are exactly the input listings sharing its key in arrival
order; the representative record is the member with the highest
individual peers (first on ties), but the display title attached to it
is derived from the group's first-seen member's title, not from the
representative's. -/
theorem representative_vs_display (keyFn : String → String × String)
    (items : List RawItem) (g : EntityGroup) (hg : g ∈ groupByKeyFn keyFn items) :
    ∃ (m0 : RawItem) (tl : List RawItem) (rep : RawItem),
      g.torrents = m0 :: tl ∧
      g.torrents = items.filter (fun it => (keyFn it.title).1 == (keyFn m0.title).1) ∧
      pyMaxPeers g.torrents = some rep ∧
      g.representative = { rep with clean_title := (keyFn m0.title).2 } := by
  obtain ⟨p, hp, he⟩ := List.mem_filterMap.mp hg
  obtain ⟨-, -, hent⟩ := buildGroupsMap_inv keyFn items
  obtain ⟨htor, hne, hdisp, -, -, -⟩ := hent p hp
  obtain ⟨m0, tl, hm⟩ := List.exists_cons_of_ne_nil hne
  rcases hmax : pyMaxPeers p.2.torrents with _ | rep
  · rw [mkEntityGroup, hmax] at he; cases he
  · rw [mkEntityGroup, hmax] at he
    obtain rfl := (Option.some.injEq _ _ ▸ he : _ = g)
    have hm0mem : m0 ∈ p.2.torrents := hm ▸ List.mem_cons_self m0 tl
    have hm0key : ((keyFn m0.title).1 == p.1) = true :=
      (List.mem_filter.mp (show m0 ∈
        items.filter (fun it => (keyFn it.title).1 == p.1) from htor ▸ hm0mem)).2
    have hkeq : (keyFn m0.title).1 = p.1 := eq_of_beq hm0key
    refine ⟨m0, tl, rep, hm, ?_, hmax, ?_⟩
    · show p.2.torrents = _
      rw [hkeq]
      exact htor
    · show { rep with clean_title := p.2.display_title } = _
      rw [hdisp m0 tl hm]

set_option maxRecDepth 1000000 in
/-- C5 counterexample: two listings share the key `eldenring`; the
second (higher peers) is the representative, yet the emitted display
title `"Elden RING"` comes from the first-seen member and differs from
the display derived from the representative's own title. -/
theorem representative_display_counterexample :
    groupGames eldenItems =
      [⟨⟨"Elden Ring", 5, 0, "Elden RING"⟩, 6, 0, 6, eldenItems⟩] ∧
    (gameGroupingKeyS "Elden Ring").2 = "Elden Ring" ∧
    ("Elden RING" : String) ≠ "Elden Ring" :=
  ⟨by decide, by decide, by decide⟩

set_option maxRecDepth 1000000 in
/-- C5 witness: the amended statement evaluated on a singleton input. -/
theorem representative_vs_display_witness :
    ∃ (m0 : RawItem) (tl : List RawItem) (rep : RawItem),
      plainGroup.torrents = m0 :: tl ∧
      plainGroup.torrents =
        [plainItem].filter (fun it =>
          (gameGroupingKeyS it.title).1 == (gameGroupingKeyS m0.title).1) ∧
      pyMaxPeers plainGroup.torrents = some rep ∧
      plainGroup.representative = { rep with clean_title := (gameGroupingKeyS m0.title).2 } :=
  representative_vs_display gameGroupingKeyS [plainItem] plainGroup (by decide)

end TorrentMon

